import Mathlib

/-!
Shallow embedding of `src/copy_data.py`, a batch utility that copies
seismic data files from a four-level source directory tree into a
destination tree, renaming the top-level directory via a longest-prefix
mapping loaded from a spreadsheet.

Python strings are modelled as `List Char` (`Str`).  The pieces of the
program that this development embeds:

* `rstripStar`   — `source_pattern.rstrip("*")` (strip ALL trailing `*`);
* `match_mapping`— the longest-prefix matcher (lines 105–115);
* `load_mapping` — the spreadsheet loader (lines 16–30), with the
  workbook abstracted to its row list and each cell to the trimmed-string
  view Python produces via `str(...)`;
* `iter_source_files` — the directory walker (lines 82–102) over an
  explicit file-system tree, with Python regex semantics of
  `re.match(r"^...$", s)` modelled exactly (in Python, `$` also matches
  just before a single trailing newline);
* `copy_files`   — the copy loop (lines 118–143), with file-system
  effects reified as a trace of operations and prints as a log;
* `main`         — startup checks and summary line (lines 146–166),
  with the environment abstracted into a `World`.
-/

/-- Python strings, modelled as lists of characters. -/
abbrev Str := List Char

/-- Convenience conversion from Lean string literals. -/
def str (s : String) : Str := s.toList

/-- File-system paths, as lists of path components. -/
abbrev FPath := List Str

/-- Python truthiness of an optional string: `None` and `""` are falsy
(`if not mapped_level1:` in `copy_files`). -/
def pyTruthy : Option Str → Bool
  | none => false
  | some s => !s.isEmpty

/-- `source_pattern.rstrip("*")`: remove every trailing asterisk. -/
def rstripStar (s : Str) : Str :=
  (s.reverse.dropWhile (· == '*')).reverse

/-- One iteration of the `for source_pattern, dest_name in mapping.items()`
loop of `match_mapping`, acting on the accumulator
`(best_match, best_len)`.  `best_len` is an integer because the Python
code initialises it to `-1`. -/
def matchStep (level1_name : Str) (acc : Option Str × Int) (e : Str × Str) :
    Option Str × Int :=
  if (rstripStar e.1).isEmpty then acc
  else if (rstripStar e.1).isPrefixOf level1_name &&
      decide (acc.2 < ((rstripStar e.1).length : Int)) then
    (some e.2, ((rstripStar e.1).length : Int))
  else acc

/-- `match_mapping(level1_name, mapping)` (lines 105–115): longest
stripped-prefix match over the mapping in iteration order, strict `>`
against the running best length.  The mapping is its ordered item list. -/
def match_mapping (level1_name : Str) (mapping : List (Str × Str)) : Option Str :=
  (mapping.foldl (matchStep level1_name) (none, -1)).1

/-! ### Mapping loader (`load_mapping`, lines 16–30)

A spreadsheet row is a list of cells; a cell is `none` for Python `None`
and `some s` for a non-`None` value whose `str(...)` rendering is `s`.
The Python `dict` is modelled as an association list in insertion order:
inserting an existing key updates the value in place (keeping the key's
original position, as a Python dict does), a new key is appended. -/

/-- Cell of a spreadsheet row: `None` or a value rendered by `str`. -/
abbrev Cell := Option Str

/-- Python `str.strip()`: remove leading and trailing whitespace. -/
def pyStrip (s : Str) : Str :=
  ((s.dropWhile Char.isWhitespace).reverse.dropWhile Char.isWhitespace).reverse

/-- `str(row[i]).strip() if row[i] is not None else ""`, guarded by the
row being long enough (the code guards `row[1]` with `len(row) > 1`). -/
def cellText (row : List Cell) (i : Nat) : Str :=
  match row.getD i none with
  | none => []
  | some v => pyStrip v

/-- Python `dict` assignment `mapping[k] = v` on the ordered item list:
an existing key keeps its position and gets the new value, a new key is
appended at the end. -/
def dictInsert (m : List (Str × Str)) (k v : Str) : List (Str × Str) :=
  if m.any (fun e => e.1 = k) then
    m.map (fun e => if e.1 = k then (k, v) else e)
  else m ++ [(k, v)]

/-- Lookup in the ordered item list (Python `mapping[k]` as a partial map). -/
def dictGet (m : List (Str × Str)) (k : Str) : Option Str :=
  (m.find? (fun e => e.1 = k)).map (·.2)

/-- One iteration of the `for row in sheet.iter_rows(...)` loop. -/
def loadRow (m : List (Str × Str)) (row : List Cell) : List (Str × Str) :=
  if row.isEmpty then m
  else
    let source_name := cellText row 0
    let dest_name := cellText row 1
    if !source_name.isEmpty && !dest_name.isEmpty then
      dictInsert m source_name dest_name
    else m

/-- `load_mapping` (lines 16–30), abstracted over the row list of the
workbook's active sheet; the result is the dict's ordered item list. -/
def load_mapping (rows : List (List Cell)) : List (Str × Str) :=
  rows.foldl loadRow []

/-! ### Source walker (`iter_source_files`, lines 82–102)

The file system is a finite tree; a directory holds a list of
(name, node) entries in enumeration order. -/

/-- A file-system node: a regular file or a directory with named children. -/
inductive FsNode where
  | file : FsNode
  | dir : List (Str × FsNode) → FsNode

/-- Children of a node (empty for a regular file). -/
def FsNode.children : FsNode → List (Str × FsNode)
  | .file => []
  | .dir cs => cs

/-- `Path.is_dir()`. -/
def FsNode.isDirB : FsNode → Bool
  | .file => false
  | .dir _ => true

/-- `Path.is_file()`. -/
def FsNode.isFileB : FsNode → Bool
  | .file => true
  | .dir _ => false

/-- `parent / name` followed by use of the child: the first entry of the
directory named `name`, if any (file systems keep names unique; the model
takes the first). -/
def childNamed (cs : List (Str × FsNode)) (name : Str) : Option FsNode :=
  (cs.find? (fun e => e.1 = name)).map (·.2)

/-- Python `re.match(r"^p$", s)` for an inner pattern `p` tested by
`core`: `$` matches at the end of the string, or just before a newline
at the end of the string. -/
def pyDollarMatch (core : Str → Bool) (s : Str) : Bool :=
  core s || (s.getLast? == some '\n' && core s.dropLast)

/-- Inner pattern of `^\d{6}$` / `^\d{8}$`: exactly `n` digits
(`\d` modelled as a decimal digit). -/
def digitsCore (n : Nat) (s : Str) : Bool :=
  s.length == n && s.all Char.isDigit

/-- Inner pattern of `^\d{8}\.\d{2}$`: 8 digits, a dot, 2 digits. -/
def fileNameCore (s : Str) : Bool :=
  s.length == 11 && (s.take 8).all Char.isDigit &&
    s.getD 8 ' ' == '.' && (s.drop 9).all Char.isDigit

/-- `yymmdd_re.match(name)` — `re.match(r"^\d{6}$", name)`. -/
def yymmddMatch (s : Str) : Bool := pyDollarMatch (digitsCore 6) s

/-- `yymmddhh_re.match(name)` — `re.match(r"^\d{8}$", name)`. -/
def yymmddhhMatch (s : Str) : Bool := pyDollarMatch (digitsCore 8) s

/-- `filename_re.match(name)` — `re.match(r"^\d{8}\.\d{2}$", name)`. -/
def fileNameMatch (s : Str) : Bool := pyDollarMatch fileNameCore s

/-- `source_root.glob("DataTramSonTayQN*")`: the pattern's only `*` is
trailing, so a name matches exactly when it starts with the literal part. -/
def globTopMatch (name : Str) : Bool :=
  (str "DataTramSonTayQN").isPrefixOf name

/-- A tuple yielded by the walker: `(level1_dir.name, day_dir.name,
hour_dir.name, data_file)`, the file given by its path below the root. -/
abbrev SrcTuple := Str × Str × Str × FPath

/-- Innermost loop: `for data_file in hour_dir.iterdir()`. -/
def walkHour (l1 day hour : Str) (cs : List (Str × FsNode)) : List SrcTuple :=
  cs.foldr
    (fun f rest =>
      if f.2.isFileB && fileNameMatch f.1 then
        (l1, day, hour, [l1, str "SHORT", day, hour, f.1]) :: rest
      else rest) []

/-- `for hour_dir in day_dir.iterdir()`. -/
def walkDay (l1 day : Str) (cs : List (Str × FsNode)) : List SrcTuple :=
  cs.foldr
    (fun h rest =>
      if h.2.isDirB && yymmddhhMatch h.1 then
        walkHour l1 day h.1 h.2.children ++ rest
      else rest) []

/-- `for day_dir in short_dir.iterdir()`. -/
def walkShort (l1 : Str) (cs : List (Str × FsNode)) : List SrcTuple :=
  cs.foldr
    (fun d rest =>
      if d.2.isDirB && yymmddMatch d.1 then
        walkDay l1 d.1 d.2.children ++ rest
      else rest) []

/-- Body of `for level1_dir in source_root.glob(level1_pattern)`:
skip non-directories, skip directories without a `SHORT` subdirectory. -/
def walkLevel1 (e : Str × FsNode) : List SrcTuple :=
  if !e.2.isDirB then []
  else
    match childNamed e.2.children (str "SHORT") with
    | some (.dir cs) => walkShort e.1 cs
    | _ => []

/-- `iter_source_files(source_root)` (lines 82–102): the lazily yielded
tuples, collected in order, over the root's child list. -/
def iter_source_files (root : List (Str × FsNode)) : List SrcTuple :=
  (root.filter (fun e => globTopMatch e.1)).foldr
    (fun e rest => walkLevel1 e ++ rest) []

/-! ### Copy executor (`copy_files`, lines 118–143)

File-system side effects are reified as a trace of operations, one
`FsOp` per `mkdir`/`copy2` call, and the `print` calls as a structured
log.  `dest_file.exists()` consults the initial destination state plus
the files created earlier in the same run. -/

/-- A file-system mutation performed by `copy_files`. -/
inductive FsOp where
  | mkdirp : FPath → FsOp
  | copy : FPath → FPath → FsOp
deriving DecidableEq

/-- A line printed by `copy_files` or by `main`'s summary. -/
inductive LogLine where
  | warn : Str → FPath → LogLine
  | skipped : FPath → LogLine
  | planned : FPath → FPath → LogLine
  | copied : FPath → FPath → LogLine
  | done : Nat → LogLine
deriving DecidableEq

/-- Running state of the copy loop: the counter, the destination files
created so far in this run, the mutation trace and the printed log. -/
structure CopyState where
  count : Nat
  created : List FPath
  ops : List FsOp
  logs : List LogLine
deriving DecidableEq

/-- The initial state of a run. -/
def initState : CopyState := ⟨0, [], [], []⟩

/-- `dest_file.exists()`: true in the initial destination tree or created
earlier in this run. -/
def destFileExists (exists0 : FPath → Bool) (s : CopyState) (p : FPath) : Bool :=
  exists0 p || s.created.contains p

/-- `data_file.name`: last component of the path. -/
def pathName (p : FPath) : Str := p.getLastD []

/-- The body of the `for ... in iter_source_files(source_root)` loop of
`copy_files`, for one yielded tuple. -/
def processEntry (mapping : List (Str × Str)) (dest_root : FPath)
    (dry_run skip_existing : Bool) (exists0 : FPath → Bool)
    (s : CopyState) (e : SrcTuple) : CopyState :=
  let mapped_level1 := match_mapping e.1 mapping
  if !pyTruthy mapped_level1 then
    { s with logs := s.logs ++ [.warn e.1 e.2.2.2] }
  else
    let dest_dir := dest_root ++ [mapped_level1.getD [], e.2.1, e.2.2.1]
    let dest_file := dest_dir ++ [pathName e.2.2.2]
    if skip_existing && destFileExists exists0 s dest_file then
      { s with logs := s.logs ++ [.skipped dest_file] }
    else if dry_run then
      { s with logs := s.logs ++ [.planned e.2.2.2 dest_file] }
    else
      { count := s.count + 1
        created := s.created ++ [dest_file]
        ops := s.ops ++ [.mkdirp dest_dir, .copy e.2.2.2 dest_file]
        logs := s.logs ++ [.copied e.2.2.2 dest_file] }

/-- The loop of `copy_files` from an arbitrary starting state. -/
def copyLoop (mapping : List (Str × Str)) (dest_root : FPath)
    (dry_run skip_existing : Bool) (exists0 : FPath → Bool)
    (entries : List SrcTuple) (s : CopyState) : CopyState :=
  entries.foldl (processEntry mapping dest_root dry_run skip_existing exists0) s

/-- `copy_files` (lines 118–143): run the loop over the walker's tuples
starting from the empty state; `.count` of the result is the returned
`copied_count`. -/
def copy_files (source_root : List (Str × FsNode)) (dest_root : FPath)
    (mapping : List (Str × Str)) (dry_run skip_existing : Bool)
    (exists0 : FPath → Bool) : CopyState :=
  copyLoop mapping dest_root dry_run skip_existing exists0
    (iter_source_files source_root) initState

/-! ### `main` (lines 146–166)

The process environment is abstracted into a `World`; `SystemExit` with
a message (a non-zero exit in Python) is the `.error` branch. -/

/-- The three fatal startup errors of the program. -/
inductive SysExit where
  | missingOpenpyxl : SysExit
  | sourceRootNotFound : SysExit
  | mappingFileNotFound : SysExit
deriving DecidableEq

/-- The environment a run sees. -/
structure World where
  openpyxlAvailable : Bool
  sourceRootExists : Bool
  mappingFileExists : Bool
  sourceRoot : List (Str × FsNode)
  mappingRows : List (List Cell)
  destExists : FPath → Bool

/-- Command-line options relevant to behaviour. -/
structure Args where
  destRoot : FPath
  dryRun : Bool
  skipExisting : Bool

/-- `ensure_openpyxl_available()` (lines 9–13), called by `load_mapping`
before reading the workbook. -/
def loadMappingChecked (w : World) : Except SysExit (List (Str × Str)) :=
  if !w.openpyxlAvailable then .error .missingOpenpyxl
  else .ok (load_mapping w.mappingRows)

/-- `main()` (lines 146–166): existence checks, mapping load, copy run,
and the summary line (printed only outside dry-run mode).  (Named
`mainRun` because Lean reserves `main` for program entry points.) -/
def mainRun (w : World) (a : Args) : Except SysExit CopyState :=
  if !w.sourceRootExists then .error .sourceRootNotFound
  else if !w.mappingFileExists then .error .mappingFileNotFound
  else
    match loadMappingChecked w with
    | .error e => .error e
    | .ok mapping =>
      let r := copy_files w.sourceRoot a.destRoot mapping a.dryRun a.skipExisting
        w.destExists
      .ok { r with logs := r.logs ++ if a.dryRun then [] else [.done r.count] }

/-! ## Lemmas about `match_mapping` -/

theorem matchStep_keep (name : Str) (acc : Option Str × Int) (e : Str × Str)
    (h : (rstripStar e.1).isPrefixOf name = true →
      ((rstripStar e.1).length : Int) ≤ acc.2) :
    matchStep name acc e = acc := by
  unfold matchStep
  split
  · rfl
  · split
    · rename_i hne hcond
      rw [Bool.and_eq_true, decide_eq_true_iff] at hcond
      exact absurd (h hcond.1) (not_le.mpr hcond.2)
    · rfl

theorem matchStep_snd_lt (name : Str) (acc : Option Str × Int) (e : Str × Str)
    (L : Int) (hacc : acc.2 < L)
    (he : (rstripStar e.1).isPrefixOf name = true →
      ((rstripStar e.1).length : Int) < L) :
    (matchStep name acc e).2 < L := by
  unfold matchStep
  split
  · exact hacc
  · split
    · rename_i hne hcond
      rw [Bool.and_eq_true] at hcond
      exact he hcond.1
    · exact hacc

theorem foldl_matchStep_snd_lt (name : Str) (L : Int) :
    ∀ (l : List (Str × Str)) (acc : Option Str × Int), acc.2 < L →
      (∀ e ∈ l, (rstripStar e.1).isPrefixOf name = true →
        ((rstripStar e.1).length : Int) < L) →
      (l.foldl (matchStep name) acc).2 < L := by
  intro l
  induction l with
  | nil => intro acc hacc _; simpa using hacc
  | cons e t ih =>
    intro acc hacc hall
    simp only [List.foldl_cons]
    exact ih _ (matchStep_snd_lt name acc e L hacc (hall e (by simp)))
      (fun x hx => hall x (by simp [hx]))

theorem foldl_matchStep_keep (name : Str) :
    ∀ (l : List (Str × Str)) (acc : Option Str × Int),
      (∀ e ∈ l, (rstripStar e.1).isPrefixOf name = true →
        ((rstripStar e.1).length : Int) ≤ acc.2) →
      l.foldl (matchStep name) acc = acc := by
  intro l
  induction l with
  | nil => intro acc _; rfl
  | cons e t ih =>
    intro acc hall
    simp only [List.foldl_cons]
    rw [matchStep_keep name acc e (hall e (by simp))]
    exact ih acc (fun x hx => hall x (by simp [hx]))

/-- C1 — `match_mapping` returns the destination of the entry whose
stripped key is a prefix of the name and is strictly longer than every
other matching stripped prefix; the first entry wins ties because the
running-best comparison is strict, so an entry beats everything before it
strictly and everything after it weakly; with no matching stripped prefix
at all the result is `none`. -/
theorem C1_match_mapping_longest_prefix_wins :
    (∀ (name : Str) (mapping : List (Str × Str)),
      (∀ e ∈ mapping, ¬ (rstripStar e.1).isPrefixOf name = true) →
      match_mapping name mapping = none)
    ∧
    (∀ (name : Str) (l₁ l₂ : List (Str × Str)) (k v : Str),
      rstripStar k ≠ [] →
      (rstripStar k).isPrefixOf name = true →
      (∀ e ∈ l₁, (rstripStar e.1).isPrefixOf name = true →
        (rstripStar e.1).length < (rstripStar k).length) →
      (∀ e ∈ l₂, (rstripStar e.1).isPrefixOf name = true →
        (rstripStar e.1).length ≤ (rstripStar k).length) →
      match_mapping name (l₁ ++ (k, v) :: l₂) = some v) := by
  constructor
  · intro name mapping hnone
    unfold match_mapping
    rw [foldl_matchStep_keep name mapping (none, -1)
      (fun e he hpre => absurd hpre (hnone e he))]
  · intro name l₁ l₂ k v hk hpre h₁ h₂
    unfold match_mapping
    rw [List.foldl_append]
    have hacc1 : (l₁.foldl (matchStep name) (none, -1)).2 <
        ((rstripStar k).length : Int) := by
      apply foldl_matchStep_snd_lt name _ l₁ (none, -1)
      · have : (0 : Int) ≤ ((rstripStar k).length : Int) := Int.ofNat_nonneg _
        omega
      · intro e he hp
        exact_mod_cast h₁ e he hp
    have hstep : matchStep name (l₁.foldl (matchStep name) (none, -1)) (k, v) =
        (some v, ((rstripStar k).length : Int)) := by
      unfold matchStep
      split
      · rename_i hemp
        simp only [List.isEmpty_iff] at hemp
        exact absurd hemp hk
      · split
        · rfl
        · rename_i hne hcond
          rw [Bool.and_eq_true, decide_eq_true_iff] at hcond
          exact absurd (And.intro hpre hacc1) hcond
    rw [List.foldl_cons, hstep]
    rw [foldl_matchStep_keep name l₂ (some v, ((rstripStar k).length : Int))
      (fun e he hp => by
        have h := h₂ e he hp
        show ((rstripStar e.1).length : Int) ≤ ((rstripStar k).length : Int)
        exact_mod_cast h)]

/-- Witness for C1 at the spec's tie-break scenario: the longer stripped
prefix wins, and an unmatched name yields `none`. -/
theorem C1_witness :
    match_mapping (str "DataTramSonTayQNAlpha01")
      [(str "DataTramSonTayQN*", str "Generic"),
       (str "DataTramSonTayQNAlpha*", str "SiteA")] = some (str "SiteA")
    ∧ match_mapping (str "Other01") [(str "DataTramSonTayQN*", str "Generic")] = none := by
  constructor
  · exact C1_match_mapping_longest_prefix_wins.2 (str "DataTramSonTayQNAlpha01")
      [(str "DataTramSonTayQN*", str "Generic")] []
      (str "DataTramSonTayQNAlpha*") (str "SiteA")
      (by decide) (by decide) (by decide) (by decide)
  · exact C1_match_mapping_longest_prefix_wins.1 (str "Other01")
      [(str "DataTramSonTayQN*", str "Generic")] (by decide)

theorem matchStep_of_empty (name : Str) (acc : Option Str × Int) (e : Str × Str)
    (h : rstripStar e.1 = []) : matchStep name acc e = acc := by
  simp [matchStep, h]

/-- Behaviour of `match_mapping` on a one-entry mapping: the entry is
selected exactly when its stripped prefix is non-empty and a prefix of
the name (the `-1` initial best is always beaten). -/
theorem match_mapping_single (name k v : Str) :
    match_mapping name [(k, v)] =
      if rstripStar k ≠ [] ∧ (rstripStar k).isPrefixOf name = true then some v
      else none := by
  show (matchStep name (none, -1) (k, v)).1 = _
  unfold matchStep
  split
  · rename_i hemp
    rw [List.isEmpty_iff] at hemp
    rw [if_neg (by simp [hemp])]
  · rename_i hemp
    rw [List.isEmpty_iff] at hemp
    split
    · rename_i hcond
      rw [Bool.and_eq_true] at hcond
      rw [if_pos ⟨hemp, hcond.1⟩]
    · rename_i hcond
      rw [Bool.and_eq_true, decide_eq_true_iff] at hcond
      have hlt : ((-1 : Int)) < ((rstripStar k).length : Int) := by omega
      rw [if_neg]
      intro hc
      exact hcond ⟨hc.2, hlt⟩

/-- C9 — a mapping key that strips to the empty prefix (for instance a
catch-all `"*"`) is skipped by `match_mapping` and has no effect on the
result. -/
theorem C9_all_star_key_no_effect :
    ∀ (name : Str) (m₁ m₂ : List (Str × Str)) (k v : Str),
      rstripStar k = [] →
      match_mapping name (m₁ ++ (k, v) :: m₂) = match_mapping name (m₁ ++ m₂) := by
  intro name m₁ m₂ k v hk
  unfold match_mapping
  rw [List.foldl_append, List.foldl_append, List.foldl_cons,
    matchStep_of_empty name _ (k, v) hk]

/-- Witness for C9: a leading `"*"` entry does not capture a name that a
later entry routes. -/
theorem C9_witness :
    match_mapping (str "abc") ((str "*", str "X") :: [(str "a*", str "Y")]) =
      match_mapping (str "abc") [(str "a*", str "Y")] :=
  C9_all_star_key_no_effect (str "abc") [] [(str "a*", str "Y")]
    (str "*") (str "X") (by decide)

theorem dropWhile_star_replicate (n : Nat) (l : Str) :
    (List.replicate n '*' ++ l).dropWhile (· == '*') = l.dropWhile (· == '*') := by
  induction n with
  | zero => simp
  | succ m ih => simp [List.replicate_succ, List.dropWhile, ih]

/-- C10 — stripping removes all trailing asterisks (any number of them),
a one-entry match is exactly a non-empty stripped-prefix match, and when
a key with interior asterisks matches, the name carries the same
characters — asterisks included — at every position of the stripped
prefix (interior asterisks are literals, not wildcards). -/
theorem C10_rstrip_all_and_literal_stars :
    (∀ (k : Str) (n : Nat),
      rstripStar (k ++ List.replicate n '*') = rstripStar k)
    ∧
    (∀ (name k v : Str),
      match_mapping name [(k, v)] =
        if rstripStar k ≠ [] ∧ (rstripStar k).isPrefixOf name = true then some v
        else none)
    ∧
    (∀ (name k v : Str) (i : Nat),
      match_mapping name [(k, v)] = some v → i < (rstripStar k).length →
      name[i]? = (rstripStar k)[i]?) := by
  refine ⟨?_, match_mapping_single, ?_⟩
  · intro k n
    unfold rstripStar
    rw [List.reverse_append, List.reverse_replicate, dropWhile_star_replicate]
  · intro name k v i hm hi
    rw [match_mapping_single] at hm
    split at hm
    · rename_i hcond
      have hpre : rstripStar k <+: name := by
        rw [← List.isPrefixOf_iff_prefix]
        exact hcond.2
      obtain ⟨t, ht⟩ := hpre
      rw [← ht, List.getElem?_append_left hi]
    · exact absurd hm (by simp)

/-- Witness for C10: `"P**"` strips to the same prefix as `"P"`, and key
`"a*b*"` matches exactly the names carrying a literal `*` at position 1. -/
theorem C10_witness :
    rstripStar (str "P" ++ List.replicate 2 '*') = rstripStar (str "P")
    ∧ match_mapping (str "a*b1") [(str "a*b*", str "V")] = some (str "V")
    ∧ (str "a*b1")[1]? = some '*' := by
  refine ⟨C10_rstrip_all_and_literal_stars.1 (str "P") 2, ?_, ?_⟩
  · rw [C10_rstrip_all_and_literal_stars.2.1]
    decide
  · have h := C10_rstrip_all_and_literal_stars.2.2 (str "a*b1") (str "a*b*")
      (str "V") 1 (by decide) (by decide)
    rw [h]
    decide

/-! ## Lemmas about `load_mapping` -/

/-- Spec-side view of a spreadsheet row: both of its first two cells are
non-empty after conversion to trimmed strings. -/
def goodRow (row : List Cell) : Bool :=
  !(cellText row 0).isEmpty && !(cellText row 1).isEmpty

/-- Spec-side view of the loaded mapping: the value of the last row, top
to bottom, whose trimmed cells are non-empty and whose trimmed first
cell is `k`. -/
def lastGoodVal (rows : List (List Cell)) (k : Str) : Option Str :=
  (rows.reverse.find? (fun row => goodRow row && decide (cellText row 0 = k))).map
    (fun row => cellText row 1)

theorem dictGet_map_overwrite {k k' v : Str} (hne : k' ≠ k) :
    ∀ m : List (Str × Str),
      dictGet (m.map (fun e => if e.1 = k then (k, v) else e)) k' = dictGet m k' := by
  intro m
  induction m with
  | nil => rfl
  | cons e t ih =>
    by_cases he : e.1 = k
    · have h1 : decide (k = k') = false := by
        simp only [decide_eq_false_iff_not]
        exact fun h => hne h.symm
      have h2 : decide (e.1 = k') = false := by
        simp only [decide_eq_false_iff_not]
        rw [he]
        exact fun h => hne h.symm
      simp only [dictGet, List.map_cons, if_pos he, List.find?_cons] at *
      simp only [h1, h2]
      exact ih
    · simp only [dictGet, List.map_cons, if_neg he, List.find?_cons] at *
      cases hd : decide (e.1 = k') with
      | true => simp
      | false => simp only [hd]; exact ih

theorem dictGet_map_overwrite_self {k v : Str} :
    ∀ m : List (Str × Str), m.any (fun e => e.1 = k) = true →
      dictGet (m.map (fun e => if e.1 = k then (k, v) else e)) k = some v := by
  intro m
  induction m with
  | nil => intro h; simp at h
  | cons e t ih =>
    intro h
    by_cases he : e.1 = k
    · simp [dictGet, List.find?_cons, if_pos he]
    · rw [List.any_cons] at h
      have h' : t.any (fun e => e.1 = k) = true := by
        simpa [he] using h
      have h2 : decide (e.1 = k) = false := by
        simp only [decide_eq_false_iff_not]
        exact he
      simp only [dictGet, List.map_cons, if_neg he, List.find?_cons]
      simp only [h2]
      exact ih h'

theorem dictGet_append_single (m : List (Str × Str)) (k v k' : Str) :
    dictGet (m ++ [(k, v)]) k' =
      ((dictGet m k').or (if k' = k then some v else none)) := by
  unfold dictGet
  rw [List.find?_append]
  cases hf : m.find? (fun e => decide (e.1 = k')) with
  | some e => simp
  | none =>
    by_cases hk : k' = k
    · simp [List.find?_cons, hk]
    · have h1 : decide (k = k') = false := by
        simp only [decide_eq_false_iff_not]
        exact fun h => hk h.symm
      simp [List.find?_cons, h1, hk]

/-- Python dict assignment seen through lookup: the inserted key now maps
to the new value, all other keys are untouched. -/
theorem dictGet_dictInsert (m : List (Str × Str)) (k v k' : Str) :
    dictGet (dictInsert m k v) k' = if k' = k then some v else dictGet m k' := by
  unfold dictInsert
  split
  · rename_i hany
    by_cases hk : k' = k
    · subst hk
      rw [if_pos rfl]
      exact dictGet_map_overwrite_self m hany
    · rw [if_neg hk]
      exact dictGet_map_overwrite hk m
  · rename_i hany
    rw [dictGet_append_single]
    by_cases hk : k' = k
    · subst hk
      have hnone : dictGet m k' = none := by
        unfold dictGet
        rw [List.find?_eq_none.mpr]
        · rfl
        · intro x hx
          simp only [Bool.not_eq_true, decide_eq_false_iff_not]
          intro hxk
          exact hany (List.any_eq_true.mpr ⟨x, hx, by simp [hxk]⟩)
      rw [hnone, if_pos rfl]
      rfl
    · rw [if_neg hk, if_neg hk, Option.or_none]

theorem loadRow_eq (m : List (Str × Str)) (row : List Cell) :
    loadRow m row =
      if goodRow row = true then dictInsert m (cellText row 0) (cellText row 1)
      else m := by
  unfold loadRow
  split
  · rename_i hemp
    rw [List.isEmpty_iff] at hemp
    subst hemp
    rw [if_neg (by decide)]
  · rename_i hemp
    simp only [goodRow]

theorem dictGet_loadRow (m : List (Str × Str)) (row : List Cell) (k : Str) :
    dictGet (loadRow m row) k =
      if (goodRow row && decide (cellText row 0 = k)) = true then
        some (cellText row 1)
      else dictGet m k := by
  rw [loadRow_eq]
  by_cases hg : goodRow row = true
  · rw [if_pos hg, dictGet_dictInsert]
    by_cases hk : cellText row 0 = k
    · rw [if_pos hk.symm, if_pos (by simp [hg, hk])]
    · rw [if_neg (fun h => hk h.symm), if_neg (by simp [hk])]
  · rw [if_neg hg, if_neg (by simp [hg])]

theorem lastGoodVal_cons (r : List Cell) (rows : List (List Cell)) (k : Str) :
    lastGoodVal (r :: rows) k =
      (lastGoodVal rows k).or
        (if (goodRow r && decide (cellText r 0 = k)) = true then
          some (cellText r 1)
        else none) := by
  unfold lastGoodVal
  rw [List.reverse_cons, List.find?_append]
  cases hf : rows.reverse.find?
      (fun row => goodRow row && decide (cellText row 0 = k)) with
  | some e => simp
  | none =>
    simp only [Option.none_or, Option.map_none]
    rw [List.find?_cons]
    cases hc : (goodRow r && decide (cellText r 0 = k)) <;> simp [hc]

theorem dictGet_foldl_loadRow (k : Str) :
    ∀ (rows : List (List Cell)) (m : List (Str × Str)),
      dictGet (rows.foldl loadRow m) k =
        (lastGoodVal rows k).or (dictGet m k) := by
  intro rows
  induction rows with
  | nil => intro m; simp [lastGoodVal]
  | cons r t ih =>
    intro m
    rw [List.foldl_cons, ih, lastGoodVal_cons, dictGet_loadRow]
    cases lastGoodVal t k <;>
      cases hc : (goodRow r && decide (cellText r 0 = k)) <;> simp [hc]

/-- C2 — looking up any key in the loaded mapping gives exactly the
second trimmed cell of the last row, top to bottom, whose first two
trimmed cells are non-empty and whose first trimmed cell is that key;
in particular rows with an empty trimmed first or second cell contribute
nothing, and among duplicate first cells the last row read wins. -/
theorem C2_load_mapping_last_row_wins :
    ∀ (rows : List (List Cell)) (k : Str),
      dictGet (load_mapping rows) k = lastGoodVal rows k := by
  intro rows k
  unfold load_mapping
  rw [dictGet_foldl_loadRow]
  cases h : lastGoodVal rows k <;> simp [dictGet]

/-! ## Lemmas about `iter_source_files` -/

theorem mem_foldr_filter_append {α β : Type _} (p : α → Bool) (g : α → List β) :
    ∀ (l : List α) (b : β),
      b ∈ l.foldr (fun x rest => if p x then g x ++ rest else rest) [] ↔
        ∃ x ∈ l, p x = true ∧ b ∈ g x := by
  intro l b
  induction l with
  | nil => simp
  | cons x l ih =>
    rw [List.foldr_cons]
    by_cases hc : p x = true
    · rw [if_pos hc, List.mem_append, ih]
      constructor
      · rintro (hb | ⟨y, hy, hpy, hby⟩)
        · exact ⟨x, List.mem_cons_self x l, hc, hb⟩
        · exact ⟨y, List.mem_cons_of_mem x hy, hpy, hby⟩
      · rintro ⟨y, hy, hpy, hby⟩
        rcases List.mem_cons.mp hy with rfl | hy'
        · exact Or.inl hby
        · exact Or.inr ⟨y, hy', hpy, hby⟩
    · rw [if_neg hc, ih]
      constructor
      · rintro ⟨y, hy, hpy, hby⟩
        exact ⟨y, List.mem_cons_of_mem x hy, hpy, hby⟩
      · rintro ⟨y, hy, hpy, hby⟩
        rcases List.mem_cons.mp hy with rfl | hy'
        · exact absurd hpy hc
        · exact ⟨y, hy', hpy, hby⟩

theorem nodup_foldr_filter_append {α β : Type _} (p : α → Bool) (g : α → List β)
    (key : α → Str) (tag : β → Str) :
    ∀ l : List α,
      (l.map key).Nodup →
      (∀ x ∈ l, p x = true → (g x).Nodup) →
      (∀ x ∈ l, ∀ b ∈ g x, tag b = key x) →
      (l.foldr (fun x rest => if p x then g x ++ rest else rest) []).Nodup := by
  intro l
  induction l with
  | nil => intro _ _ _; simp
  | cons x l ih =>
    intro hkeys hgn htag
    rw [List.map_cons, List.nodup_cons] at hkeys
    rw [List.foldr_cons]
    by_cases hc : p x = true
    · rw [if_pos hc]
      refine List.Nodup.append (hgn x (List.mem_cons_self x l) hc)
        (ih hkeys.2 (fun y hy => hgn y (List.mem_cons_of_mem x hy))
          (fun y hy => htag y (List.mem_cons_of_mem x hy))) ?_
      intro b hb1 hb2
      have h1 : tag b = key x := htag x (List.mem_cons_self x l) b hb1
      obtain ⟨y, hy, hpy, hby⟩ := (mem_foldr_filter_append p g l b).mp hb2
      have h2 : tag b = key y := htag y (List.mem_cons_of_mem x hy) b hby
      have hxy : key x = key y := by rw [← h1, h2]
      exact hkeys.1 (hxy ▸ List.mem_map_of_mem key hy)
    · rw [if_neg hc]
      exact ih hkeys.2 (fun y hy => hgn y (List.mem_cons_of_mem x hy))
        (fun y hy => htag y (List.mem_cons_of_mem x hy))

instance : Inhabited FsNode := ⟨FsNode.file⟩

theorem FsNode.isDirB_iff {n : FsNode} : n.isDirB = true ↔ ∃ cs, n = FsNode.dir cs := by
  cases n with
  | file =>
    simp only [FsNode.isDirB, Bool.false_eq_true, false_iff]
    rintro ⟨cs, h⟩
    exact FsNode.noConfusion h
  | dir cs => simp [FsNode.isDirB]

theorem FsNode.isFileB_iff {n : FsNode} : n.isFileB = true ↔ n = FsNode.file := by
  cases n with
  | file => simp [FsNode.isFileB]
  | dir cs =>
    simp only [FsNode.isFileB, Bool.false_eq_true, false_iff]
    exact fun h => FsNode.noConfusion h

theorem mem_walkHour {l1 day hour : Str} {cs : List (Str × FsNode)} {t : SrcTuple} :
    t ∈ walkHour l1 day hour cs ↔
      ∃ f ∈ cs, (f.2.isFileB && fileNameMatch f.1) = true ∧
        t = (l1, day, hour, [l1, str "SHORT", day, hour, f.1]) := by
  have h := mem_foldr_filter_append
    (fun f : Str × FsNode => f.2.isFileB && fileNameMatch f.1)
    (fun f => [(l1, day, hour, [l1, str "SHORT", day, hour, f.1])]) cs t
  simpa [walkHour] using h

theorem mem_walkDay {l1 day : Str} {cs : List (Str × FsNode)} {t : SrcTuple} :
    t ∈ walkDay l1 day cs ↔
      ∃ h ∈ cs, (h.2.isDirB && yymmddhhMatch h.1) = true ∧
        t ∈ walkHour l1 day h.1 h.2.children := by
  exact mem_foldr_filter_append
    (fun h : Str × FsNode => h.2.isDirB && yymmddhhMatch h.1)
    (fun h => walkHour l1 day h.1 h.2.children) cs t

theorem mem_walkShort {l1 : Str} {cs : List (Str × FsNode)} {t : SrcTuple} :
    t ∈ walkShort l1 cs ↔
      ∃ d ∈ cs, (d.2.isDirB && yymmddMatch d.1) = true ∧
        t ∈ walkDay l1 d.1 d.2.children := by
  exact mem_foldr_filter_append
    (fun d : Str × FsNode => d.2.isDirB && yymmddMatch d.1)
    (fun d => walkDay l1 d.1 d.2.children) cs t

theorem walkLevel1_file (name : Str) : walkLevel1 (name, FsNode.file) = [] := rfl

theorem walkLevel1_dir (name : Str) (cs : List (Str × FsNode)) :
    walkLevel1 (name, FsNode.dir cs) =
      match childNamed cs (str "SHORT") with
      | some (FsNode.dir cs₂) => walkShort name cs₂
      | _ => [] := rfl

theorem mem_walkLevel1 {e : Str × FsNode} {t : SrcTuple} :
    t ∈ walkLevel1 e ↔
      ∃ cs₁ cs₂, e.2 = FsNode.dir cs₁ ∧
        childNamed cs₁ (str "SHORT") = some (FsNode.dir cs₂) ∧
        t ∈ walkShort e.1 cs₂ := by
  obtain ⟨name, n⟩ := e
  cases n with
  | file =>
    rw [walkLevel1_file]
    simp only [List.not_mem_nil, false_iff]
    rintro ⟨cs₁, cs₂, h1, h2, _⟩
    exact FsNode.noConfusion h1
  | dir cs =>
    rw [walkLevel1_dir]
    cases hc : childNamed cs (str "SHORT") with
    | none =>
      simp only [List.not_mem_nil, false_iff]
      rintro ⟨cs₁, cs₂, h1, h2, _⟩
      have h1' : cs = cs₁ := by
        have := h1
        rw [FsNode.dir.injEq] at this
        exact this
      subst h1'
      rw [hc] at h2
      cases h2
    | some m =>
      cases m with
      | file =>
        simp only [List.not_mem_nil, false_iff]
        rintro ⟨cs₁, cs₂, h1, h2, _⟩
        have h1' : cs = cs₁ := by
          have := h1
          rw [FsNode.dir.injEq] at this
          exact this
        subst h1'
        rw [hc] at h2
        cases h2
      | dir cs₂ =>
        constructor
        · intro ht
          exact ⟨cs, cs₂, rfl, hc, ht⟩
        · rintro ⟨cs₁, cs₂', h1, h2, ht⟩
          have h1' : cs = cs₁ := by
            have := h1
            rw [FsNode.dir.injEq] at this
            exact this
          subst h1'
          rw [hc, Option.some.injEq, FsNode.dir.injEq] at h2
          subst h2
          exact ht

theorem mem_iter_source_files {root : List (Str × FsNode)} {t : SrcTuple} :
    t ∈ iter_source_files root ↔
      ∃ e ∈ root, globTopMatch e.1 = true ∧ t ∈ walkLevel1 e := by
  have h := mem_foldr_filter_append (fun _ : Str × FsNode => true)
    walkLevel1 (root.filter (fun e => globTopMatch e.1)) t
  rw [iter_source_files]
  constructor
  · intro ht
    obtain ⟨e, he, -, hw⟩ := h.mp ht
    rw [List.mem_filter] at he
    exact ⟨e, he.1, he.2, hw⟩
  · rintro ⟨e, he, hg, hw⟩
    exact h.mpr ⟨e, List.mem_filter.mpr ⟨he, hg⟩, rfl, hw⟩

/-- The four-level naming convention, as a property of a source tree and
of the four names along a path: a matched top-level directory with a
`SHORT` subdirectory, a day directory accepted by `^\d{6}$`, an hour
directory accepted by `^\d{8}$`, and a regular file accepted by
`^\d{8}\.\d{2}$`. -/
def ConvFile (root : List (Str × FsNode)) (l1 day hour fname : Str) : Prop :=
  ∃ cs₁ cs₂ cs₃ cs₄,
    (l1, FsNode.dir cs₁) ∈ root ∧ globTopMatch l1 = true ∧
    childNamed cs₁ (str "SHORT") = some (FsNode.dir cs₂) ∧
    (day, FsNode.dir cs₃) ∈ cs₂ ∧ yymmddMatch day = true ∧
    (hour, FsNode.dir cs₄) ∈ cs₃ ∧ yymmddhhMatch hour = true ∧
    (fname, FsNode.file) ∈ cs₄ ∧ fileNameMatch fname = true

theorem mem_iter_full {root : List (Str × FsNode)} {t : SrcTuple} :
    t ∈ iter_source_files root ↔
      ∃ l1 day hour fname,
        t = (l1, day, hour, [l1, str "SHORT", day, hour, fname]) ∧
        ConvFile root l1 day hour fname := by
  rw [mem_iter_source_files]
  constructor
  · rintro ⟨e, he, hg, hw⟩
    obtain ⟨cs₁, cs₂, he2, hshort, hs⟩ := mem_walkLevel1.mp hw
    obtain ⟨d, hd, hdc, hday⟩ := mem_walkShort.mp hs
    rw [Bool.and_eq_true] at hdc
    obtain ⟨cs₃, hd2⟩ := FsNode.isDirB_iff.mp hdc.1
    obtain ⟨hh, hhm, hhc, hhour⟩ := mem_walkDay.mp hday
    rw [Bool.and_eq_true] at hhc
    obtain ⟨cs₄, hh2⟩ := FsNode.isDirB_iff.mp hhc.1
    obtain ⟨f, hf, hfc, rfl⟩ := mem_walkHour.mp hhour
    rw [Bool.and_eq_true] at hfc
    have hf2 := FsNode.isFileB_iff.mp hfc.1
    refine ⟨e.1, d.1, hh.1, f.1, rfl, cs₁, cs₂, cs₃, cs₄, ?_, hg, hshort, ?_,
      hdc.2, ?_, hhc.2, ?_, hfc.2⟩
    · rw [← he2]
      exact he
    · rw [← hd2]
      exact hd
    · rw [← hh2]
      have := hhm
      rw [hd2] at this
      exact this
    · rw [← hf2]
      have := hf
      rw [hh2] at this
      exact this
  · rintro ⟨l1, day, hour, fname, rfl,
      cs₁, cs₂, cs₃, cs₄, hroot, hg, hshort, hdm, hdr, hhm, hhr, hfm, hfr⟩
    refine ⟨(l1, FsNode.dir cs₁), hroot, hg, ?_⟩
    apply mem_walkLevel1.mpr
    refine ⟨cs₁, cs₂, rfl, hshort, ?_⟩
    apply mem_walkShort.mpr
    refine ⟨(day, FsNode.dir cs₃), hdm, by simp [FsNode.isDirB, hdr], ?_⟩
    apply mem_walkDay.mpr
    refine ⟨(hour, FsNode.dir cs₄), hhm, by simp [FsNode.isDirB, hhr], ?_⟩
    apply mem_walkHour.mpr
    exact ⟨(fname, FsNode.file), hfm, by simp [FsNode.isFileB, hfr], rfl⟩

/-- Well-formedness of a file-system tree to depth `n`: at every
directory level visited, children have pairwise distinct names (as a
real file system guarantees). -/
def wfTo : Nat → List (Str × FsNode) → Prop
  | 0, _ => True
  | n + 1, cs => (cs.map Prod.fst).Nodup ∧ ∀ e ∈ cs, wfTo n e.2.children

def decWfTo : (n : Nat) → (cs : List (Str × FsNode)) → Decidable (wfTo n cs)
  | 0, _ => isTrue trivial
  | n + 1, _cs =>
    have : DecidablePred (fun e : Str × FsNode => wfTo n e.2.children) :=
      fun e => decWfTo n e.2.children
    instDecidableAnd

instance (n : Nat) (cs : List (Str × FsNode)) : Decidable (wfTo n cs) :=
  decWfTo n cs

theorem walkHour_nodup (l1 day hour : Str) (cs : List (Str × FsNode))
    (h : (cs.map Prod.fst).Nodup) : (walkHour l1 day hour cs).Nodup := by
  exact nodup_foldr_filter_append
    (fun f : Str × FsNode => f.2.isFileB && fileNameMatch f.1)
    (fun f => [(l1, day, hour, [l1, str "SHORT", day, hour, f.1])])
    Prod.fst (fun t => pathName t.2.2.2) cs h
    (fun x _ _ => List.nodup_singleton _)
    (fun x _ b hb => by
      rw [List.mem_singleton] at hb
      subst hb
      rfl)

theorem walkDay_nodup (l1 day : Str) (cs : List (Str × FsNode))
    (h : (cs.map Prod.fst).Nodup)
    (hch : ∀ x ∈ cs, (x.2.children.map Prod.fst).Nodup) :
    (walkDay l1 day cs).Nodup := by
  exact nodup_foldr_filter_append
    (fun x : Str × FsNode => x.2.isDirB && yymmddhhMatch x.1)
    (fun x => walkHour l1 day x.1 x.2.children)
    Prod.fst (fun t => t.2.2.1) cs h
    (fun x hx _ => walkHour_nodup _ _ _ _ (hch x hx))
    (fun x _ b hb => by
      obtain ⟨f, _, _, rfl⟩ := mem_walkHour.mp hb
      rfl)

theorem walkShort_nodup (l1 : Str) (cs : List (Str × FsNode))
    (h : (cs.map Prod.fst).Nodup)
    (hch : ∀ x ∈ cs, (x.2.children.map Prod.fst).Nodup)
    (hch2 : ∀ x ∈ cs, ∀ y ∈ x.2.children, (y.2.children.map Prod.fst).Nodup) :
    (walkShort l1 cs).Nodup := by
  exact nodup_foldr_filter_append
    (fun x : Str × FsNode => x.2.isDirB && yymmddMatch x.1)
    (fun x => walkDay l1 x.1 x.2.children)
    Prod.fst (fun t => t.2.1) cs h
    (fun x hx _ => walkDay_nodup _ _ _ (hch x hx) (hch2 x hx))
    (fun x _ b hb => by
      obtain ⟨d, _, _, hb'⟩ := mem_walkDay.mp hb
      obtain ⟨f, _, _, rfl⟩ := mem_walkHour.mp hb'
      rfl)

theorem walkLevel1_nodup (e : Str × FsNode) (h : wfTo 4 e.2.children) :
    (walkLevel1 e).Nodup := by
  obtain ⟨name, n⟩ := e
  cases n with
  | file => rw [walkLevel1_file]; exact List.nodup_nil
  | dir cs =>
    rw [walkLevel1_dir]
    cases hc : childNamed cs (str "SHORT") with
    | none => exact List.nodup_nil
    | some m =>
      cases m with
      | file => exact List.nodup_nil
      | dir cs₂ =>
        have hmem : ∃ p ∈ cs, p.2 = FsNode.dir cs₂ := by
          unfold childNamed at hc
          cases hf : cs.find? (fun e => e.1 = str "SHORT") with
          | none => rw [hf] at hc; cases hc
          | some p =>
            rw [hf] at hc
            exact ⟨p, List.mem_of_find?_eq_some hf, by simpa using hc⟩
        obtain ⟨p, hp, hp2⟩ := hmem
        have h' : wfTo 4 cs := h
        have hcs₂ : wfTo 3 cs₂ := by
          have hw := h'.2 p hp
          rw [hp2] at hw
          exact hw
        apply walkShort_nodup
        · exact hcs₂.1
        · intro x hx
          exact (hcs₂.2 x hx).1
        · intro x hx y hy
          exact ((hcs₂.2 x hx).2 y hy).1

theorem fst_of_mem_walkLevel1 {e : Str × FsNode} {t : SrcTuple}
    (h : t ∈ walkLevel1 e) : t.1 = e.1 := by
  obtain ⟨cs₁, cs₂, _, _, h'⟩ := mem_walkLevel1.mp h
  obtain ⟨d, _, _, h''⟩ := mem_walkShort.mp h'
  obtain ⟨x, _, _, h'''⟩ := mem_walkDay.mp h''
  obtain ⟨f, _, _, rfl⟩ := mem_walkHour.mp h'''
  rfl

theorem iter_source_files_nodup (root : List (Str × FsNode)) (h : wfTo 5 root) :
    (iter_source_files root).Nodup := by
  have hfil : ((root.filter (fun e => globTopMatch e.1)).map Prod.fst).Nodup :=
    List.Nodup.sublist (List.Sublist.map Prod.fst (List.filter_sublist root)) h.1
  exact nodup_foldr_filter_append (fun _ : Str × FsNode => true)
    walkLevel1 Prod.fst (fun t => t.1) _ hfil
    (fun x hx _ => walkLevel1_nodup x (h.2 x (List.mem_of_mem_filter hx)))
    (fun x _ b hb => fst_of_mem_walkLevel1 hb)

/-- Counterexample to C3 as stated: Python's `re.match(r"^\d{6}$", name)`
also accepts a name consisting of six digits followed by one trailing
newline (`$` matches just before a trailing newline), so the walker
yields a tuple for a file under a day directory named `"210101\n"`,
whose name is not exactly 6 digits. -/
theorem C3_counterexample :
    iter_source_files
      [(str "DataTramSonTayQNA",
        .dir [(str "SHORT",
          .dir [(str "210101\n",
            .dir [(str "21010112",
              .dir [(str "21010112.00", .file)])])])])] =
      [(str "DataTramSonTayQNA", str "210101\n", str "21010112",
        [str "DataTramSonTayQNA", str "SHORT", str "210101\n",
         str "21010112", str "21010112.00"])]
    ∧ ¬((str "210101\n").length = 6 ∧ ∀ c ∈ str "210101\n", c.isDigit = true) := by
  constructor
  · decide
  · decide

/-- C3 (amended) — the walker yields exactly the files of the four-level
convention with the code's regex acceptance at each level (each `^...$`
pattern also accepting one trailing newline): membership in the yield
list is equivalent to `ConvFile`; every yielded tuple carries the
file's path below the root in the convention's shape; and over a tree
with distinct sibling names the yield list has no duplicates, so each
such file produces exactly one tuple. -/
theorem C3_walker_yields_exactly_convention :
    (∀ (root : List (Str × FsNode)) (l1 day hour fname : Str),
      (l1, day, hour, [l1, str "SHORT", day, hour, fname]) ∈
          iter_source_files root ↔
        ConvFile root l1 day hour fname)
    ∧ (∀ (root : List (Str × FsNode)) (t : SrcTuple), t ∈ iter_source_files root →
        ∃ fname : Str, t.2.2.2 = [t.1, str "SHORT", t.2.1, t.2.2.1, fname])
    ∧ (∀ root : List (Str × FsNode), wfTo 5 root →
        (iter_source_files root).Nodup) := by
  refine ⟨?_, ?_, iter_source_files_nodup⟩
  · intro root l1 day hour fname
    rw [mem_iter_full]
    constructor
    · rintro ⟨l1', day', hour', fname', heq, hcf⟩
      have h1 : l1 = l1' := congrArg (fun t : SrcTuple => t.1) heq
      have h2 : day = day' := congrArg (fun t : SrcTuple => t.2.1) heq
      have h3 : hour = hour' := congrArg (fun t : SrcTuple => t.2.2.1) heq
      have h4 : fname = fname' := congrArg (fun t : SrcTuple => pathName t.2.2.2) heq
      subst h1
      subst h2
      subst h3
      subst h4
      exact hcf
    · intro hcf
      exact ⟨l1, day, hour, fname, rfl, hcf⟩
  · intro root t ht
    obtain ⟨l1, day, hour, fname, rfl, -⟩ := mem_iter_full.mp ht
    exact ⟨fname, rfl⟩

/-- Witness for C3 at the spec's end-to-end layout: the conventional
file is yielded, its tuple carries the conventional path, and the yield
list of the (well-formed) tree has no duplicates. -/
theorem C3_witness :
    ((str "DataTramSonTayQNAlpha", str "210101", str "21010112",
      [str "DataTramSonTayQNAlpha", str "SHORT", str "210101",
       str "21010112", str "21010112.00"]) ∈
      iter_source_files
        [(str "DataTramSonTayQNAlpha",
          .dir [(str "SHORT",
            .dir [(str "210101",
              .dir [(str "21010112",
                .dir [(str "21010112.00", .file)])])])])])
    ∧ (iter_source_files
        [(str "DataTramSonTayQNAlpha",
          .dir [(str "SHORT",
            .dir [(str "210101",
              .dir [(str "21010112",
                .dir [(str "21010112.00", .file)])])])])]).Nodup := by
  constructor
  · apply (C3_walker_yields_exactly_convention.1 _ _ _ _ _).mpr
    refine ⟨[(str "SHORT",
        .dir [(str "210101",
          .dir [(str "21010112", .dir [(str "21010112.00", .file)])])])],
      [(str "210101", .dir [(str "21010112", .dir [(str "21010112.00", .file)])])],
      [(str "21010112", .dir [(str "21010112.00", .file)])],
      [(str "21010112.00", .file)],
      List.mem_singleton.mpr rfl, by decide, rfl,
      List.mem_singleton.mpr rfl, by decide,
      List.mem_singleton.mpr rfl, by decide,
      List.mem_singleton.mpr rfl, by decide⟩
  · apply C3_walker_yields_exactly_convention.2.2
    decide

/-! ## Lemmas about `copy_files` -/

theorem processEntry_logs_append (mapping : List (Str × Str)) (destRoot : FPath)
    (dry skip : Bool) (exists0 : FPath → Bool) (s : CopyState) (e : SrcTuple) :
    ∃ nl : LogLine, (∀ n, nl ≠ LogLine.done n) ∧
      (processEntry mapping destRoot dry skip exists0 s e).logs = s.logs ++ [nl] := by
  simp only [processEntry]
  split
  · refine ⟨_, fun n h => ?_, rfl⟩
    exact LogLine.noConfusion h
  · split
    · refine ⟨_, fun n h => ?_, rfl⟩
      exact LogLine.noConfusion h
    · split
      · refine ⟨_, fun n h => ?_, rfl⟩
        exact LogLine.noConfusion h
      · refine ⟨_, fun n h => ?_, rfl⟩
        exact LogLine.noConfusion h

theorem processEntry_dry_run (mapping : List (Str × Str)) (destRoot : FPath)
    (skip : Bool) (exists0 : FPath → Bool) (s : CopyState) (e : SrcTuple) :
    (processEntry mapping destRoot true skip exists0 s e).count = s.count ∧
    (processEntry mapping destRoot true skip exists0 s e).ops = s.ops ∧
    (processEntry mapping destRoot true skip exists0 s e).created = s.created := by
  simp only [processEntry]
  split
  · exact ⟨rfl, rfl, rfl⟩
  · split
    · exact ⟨rfl, rfl, rfl⟩
    · rw [if_pos trivial]
      exact ⟨rfl, rfl, rfl⟩

theorem copyLoop_dry_run (mapping : List (Str × Str)) (destRoot : FPath)
    (skip : Bool) (exists0 : FPath → Bool) :
    ∀ (entries : List SrcTuple) (s : CopyState),
      (copyLoop mapping destRoot true skip exists0 entries s).count = s.count ∧
      (copyLoop mapping destRoot true skip exists0 entries s).ops = s.ops ∧
      (copyLoop mapping destRoot true skip exists0 entries s).created = s.created := by
  intro entries
  induction entries with
  | nil => intro s; exact ⟨rfl, rfl, rfl⟩
  | cons e t ih =>
    intro s
    obtain ⟨hc, ho, hcr⟩ := processEntry_dry_run mapping destRoot skip exists0 s e
    obtain ⟨ihc, iho, ihcr⟩ := ih (processEntry mapping destRoot true skip exists0 s e)
    unfold copyLoop at *
    rw [List.foldl_cons]
    exact ⟨ihc.trans hc, iho.trans ho, ihcr.trans hcr⟩

theorem copyLoop_no_done (mapping : List (Str × Str)) (destRoot : FPath)
    (dry skip : Bool) (exists0 : FPath → Bool) :
    ∀ (entries : List SrcTuple) (s : CopyState) (n : Nat),
      LogLine.done n ∉ s.logs →
      LogLine.done n ∉ (copyLoop mapping destRoot dry skip exists0 entries s).logs := by
  intro entries
  induction entries with
  | nil => intro s n h; exact h
  | cons e t ih =>
    intro s n h
    unfold copyLoop at *
    rw [List.foldl_cons]
    apply ih
    obtain ⟨nl, hnl, heq⟩ := processEntry_logs_append mapping destRoot dry skip exists0 s e
    rw [heq]
    intro hmem
    rcases List.mem_append.mp hmem with h1 | h1
    · exact h h1
    · rw [List.mem_singleton] at h1
      exact hnl n h1.symm

theorem mainRun_err_source (w : World) (a : Args)
    (h : w.sourceRootExists = false) :
    mainRun w a = Except.error SysExit.sourceRootNotFound := by
  simp [mainRun, h]

theorem mainRun_err_mapping (w : World) (a : Args)
    (h1 : w.sourceRootExists = true) (h2 : w.mappingFileExists = false) :
    mainRun w a = Except.error SysExit.mappingFileNotFound := by
  simp [mainRun, h1, h2]

theorem mainRun_err_openpyxl (w : World) (a : Args)
    (h1 : w.sourceRootExists = true) (h2 : w.mappingFileExists = true)
    (h3 : w.openpyxlAvailable = false) :
    mainRun w a = Except.error SysExit.missingOpenpyxl := by
  simp [mainRun, loadMappingChecked, h1, h2, h3]

theorem mainRun_ok (w : World) (a : Args)
    (h1 : w.sourceRootExists = true) (h2 : w.mappingFileExists = true)
    (h3 : w.openpyxlAvailable = true) :
    mainRun w a = Except.ok
      { copy_files w.sourceRoot a.destRoot (load_mapping w.mappingRows) a.dryRun
          a.skipExisting w.destExists with
        logs := (copy_files w.sourceRoot a.destRoot (load_mapping w.mappingRows)
            a.dryRun a.skipExisting w.destExists).logs ++
          if a.dryRun then [] else
            [LogLine.done (copy_files w.sourceRoot a.destRoot
              (load_mapping w.mappingRows) a.dryRun a.skipExisting
              w.destExists).count] } := by
  simp [mainRun, loadMappingChecked, h1, h2, h3]

/-- C4 — with the dry-run flag set, `copy_files` performs no file-system
mutation at all and returns a copied-count of 0; and a successful
dry-run `main` performs no mutation, returns count 0, and never prints
the `Done. Copied N file(s).` summary line. -/
theorem C4_dry_run_no_mutation :
    (∀ (root : List (Str × FsNode)) (destRoot : FPath) (mapping : List (Str × Str))
        (skip : Bool) (exists0 : FPath → Bool),
      (copy_files root destRoot mapping true skip exists0).ops = [] ∧
      (copy_files root destRoot mapping true skip exists0).count = 0)
    ∧ (∀ (w : World) (a : Args) (r : CopyState), a.dryRun = true →
        mainRun w a = Except.ok r →
        r.ops = [] ∧ r.count = 0 ∧ ∀ n, LogLine.done n ∉ r.logs) := by
  constructor
  · intro root destRoot mapping skip exists0
    obtain ⟨hc, ho, -⟩ := copyLoop_dry_run mapping destRoot skip exists0
      (iter_source_files root) initState
    exact ⟨ho, hc⟩
  · intro w a r hdry hok
    cases h1 : w.sourceRootExists with
    | false => rw [mainRun_err_source w a h1] at hok; cases hok
    | true =>
      cases h2 : w.mappingFileExists with
      | false => rw [mainRun_err_mapping w a h1 h2] at hok; cases hok
      | true =>
        cases h3 : w.openpyxlAvailable with
        | false => rw [mainRun_err_openpyxl w a h1 h2 h3] at hok; cases hok
        | true =>
          rw [mainRun_ok w a h1 h2 h3, Except.ok.injEq] at hok
          rw [hdry] at hok
          subst hok
          obtain ⟨hc, ho, -⟩ := copyLoop_dry_run (load_mapping w.mappingRows)
            a.destRoot a.skipExisting w.destExists
            (iter_source_files w.sourceRoot) initState
          refine ⟨ho, hc, ?_⟩
          intro n hmem
          rw [if_pos rfl, List.append_nil] at hmem
          exact copyLoop_no_done (load_mapping w.mappingRows) a.destRoot true
            a.skipExisting w.destExists (iter_source_files w.sourceRoot)
            initState n (List.not_mem_nil _) hmem

/-- Witness for C4: a dry run over a one-file source tree plans the copy
but performs no mutation and prints no summary line. -/
theorem C4_witness :
    (copy_files
        [(str "DataTramSonTayQNAlpha",
          .dir [(str "SHORT",
            .dir [(str "210101",
              .dir [(str "21010112",
                .dir [(str "21010112.00", .file)])])])])]
        [str "D"] [(str "DataTramSonTayQNAlpha*", str "SiteA")] true false
        (fun _ => false)).ops = []
    ∧ ({ count := 0, created := [], ops := [],
          logs := [LogLine.planned
            [str "DataTramSonTayQNAlpha", str "SHORT", str "210101",
             str "21010112", str "21010112.00"]
            [str "D", str "SiteA", str "210101", str "21010112",
             str "21010112.00"]] } : CopyState).count = 0
    ∧ LogLine.done 0 ∉
        ({ count := 0, created := [], ops := [],
            logs := [LogLine.planned
              [str "DataTramSonTayQNAlpha", str "SHORT", str "210101",
               str "21010112", str "21010112.00"]
              [str "D", str "SiteA", str "210101", str "21010112",
               str "21010112.00"]] } : CopyState).logs := by
  refine ⟨(C4_dry_run_no_mutation.1 _ [str "D"]
      [(str "DataTramSonTayQNAlpha*", str "SiteA")] false (fun _ => false)).1,
    ?_, ?_⟩
  · exact (C4_dry_run_no_mutation.2
      ⟨true, true, true,
        [(str "DataTramSonTayQNAlpha",
          .dir [(str "SHORT",
            .dir [(str "210101",
              .dir [(str "21010112",
                .dir [(str "21010112.00", .file)])])])])],
        [[some (str "DataTramSonTayQNAlpha*"), some (str "SiteA")]],
        fun _ => false⟩
      ⟨[str "D"], true, false⟩ _ rfl rfl).2.1
  · exact (C4_dry_run_no_mutation.2
      ⟨true, true, true,
        [(str "DataTramSonTayQNAlpha",
          .dir [(str "SHORT",
            .dir [(str "210101",
              .dir [(str "21010112",
                .dir [(str "21010112.00", .file)])])])])],
        [[some (str "DataTramSonTayQNAlpha*"), some (str "SiteA")]],
        fun _ => false⟩
      ⟨[str "D"], true, false⟩ _ rfl rfl).2.2 0

theorem processEntry_copy_mem (mapping : List (Str × Str)) (destRoot : FPath)
    (dry skip : Bool) (exists0 : FPath → Bool) (s : CopyState) (e : SrcTuple)
    (src dst : FPath)
    (h : FsOp.copy src dst ∈ (processEntry mapping destRoot dry skip exists0 s e).ops) :
    FsOp.copy src dst ∈ s.ops ∨
      (skip && destFileExists exists0 s dst) = false := by
  simp only [processEntry] at h
  split at h
  · exact Or.inl h
  · split at h
    · exact Or.inl h
    · split at h
      · exact Or.inl h
      · rename_i hcond hdry
        rcases List.mem_append.mp h with h1 | h1
        · exact Or.inl h1
        · rcases List.mem_cons.mp h1 with h2 | h2
          · exact FsOp.noConfusion h2
          · rw [List.mem_singleton] at h2
            rw [FsOp.copy.injEq] at h2
            right
            rw [h2.2]
            cases hbb : (skip && destFileExists exists0 s
                (destRoot ++ [(match_mapping e.1 mapping).getD [], e.2.1, e.2.2.1] ++
                  [pathName e.2.2.2])) with
            | false => rfl
            | true => exact absurd hbb hcond

theorem copyLoop_skip_no_overwrite (mapping : List (Str × Str)) (destRoot : FPath)
    (dry : Bool) (exists0 : FPath → Bool) :
    ∀ (entries : List SrcTuple) (s : CopyState),
      (∀ src dst, FsOp.copy src dst ∈ s.ops → exists0 dst = false) →
      ∀ src dst,
        FsOp.copy src dst ∈ (copyLoop mapping destRoot dry true exists0 entries s).ops →
        exists0 dst = false := by
  intro entries
  induction entries with
  | nil => intro s h; exact h
  | cons e t ih =>
    intro s h src dst hmem
    unfold copyLoop at *
    rw [List.foldl_cons] at hmem
    refine ih _ ?_ src dst hmem
    intro a b hm
    rcases processEntry_copy_mem mapping destRoot dry true exists0 s e a b hm with h1 | h1
    · exact h a b h1
    · rw [Bool.true_and] at h1
      unfold destFileExists at h1
      exact (Bool.or_eq_false_iff.mp h1).1

/-- C5 — with skip-existing set: a walked file whose computed destination
already exists only appends a skip log line, leaving count, trace and
created files untouched, whatever the dry-run flag is (the skip check
precedes the dry-run check); and no copy in the whole run ever targets a
destination path that existed before the run. -/
theorem C5_skip_existing_preserves :
    (∀ (mapping : List (Str × Str)) (destRoot : FPath) (dry : Bool)
        (exists0 : FPath → Bool) (s : CopyState) (e : SrcTuple) (m : Str),
      match_mapping e.1 mapping = some m → m ≠ [] →
      destFileExists exists0 s
        (destRoot ++ [m, e.2.1, e.2.2.1] ++ [pathName e.2.2.2]) = true →
      processEntry mapping destRoot dry true exists0 s e =
        { s with logs := s.logs ++
            [LogLine.skipped (destRoot ++ [m, e.2.1, e.2.2.1] ++ [pathName e.2.2.2])] })
    ∧ (∀ (root : List (Str × FsNode)) (destRoot : FPath)
        (mapping : List (Str × Str)) (dry : Bool) (exists0 : FPath → Bool)
        (src dst : FPath),
      FsOp.copy src dst ∈ (copy_files root destRoot mapping dry true exists0).ops →
      exists0 dst = false) := by
  constructor
  · intro mapping destRoot dry exists0 s e m hm hne hex
    simp only [processEntry, hm, Option.getD_some]
    rw [if_neg (by simp [pyTruthy, List.isEmpty_iff, hne])]
    rw [if_pos (by rw [Bool.true_and]; exact hex)]
  · intro root destRoot mapping dry exists0 src dst hmem
    exact copyLoop_skip_no_overwrite mapping destRoot dry exists0
      (iter_source_files root) initState
      (fun a b hab => absurd hab (List.not_mem_nil _)) src dst hmem

/-- Witness for C5: with an already-present destination, a skip line is
logged even in dry-run mode, and a run over a one-file tree with an
always-false destination probe never targets an existing path. -/
theorem C5_witness :
    processEntry [(str "DataTramSonTayQNAlpha*", str "SiteA")] [str "D"]
        true true (fun _ => true) initState
        (str "DataTramSonTayQNAlpha", str "210101", str "21010112",
          [str "DataTramSonTayQNAlpha", str "SHORT", str "210101",
           str "21010112", str "21010112.00"]) =
      { initState with logs := initState.logs ++
          [LogLine.skipped ([str "D"] ++
            [str "SiteA", str "210101", str "21010112"] ++
            [str "21010112.00"])] }
    ∧ (fun _ : FPath => false)
        [str "D", str "SiteA", str "210101", str "21010112", str "21010112.00"] =
      false := by
  constructor
  · exact C5_skip_existing_preserves.1
      [(str "DataTramSonTayQNAlpha*", str "SiteA")] [str "D"] true
      (fun _ => true) initState
      (str "DataTramSonTayQNAlpha", str "210101", str "21010112",
        [str "DataTramSonTayQNAlpha", str "SHORT", str "210101",
         str "21010112", str "21010112.00"])
      (str "SiteA") (by decide) (by decide) rfl
  · exact C5_skip_existing_preserves.2
      [(str "DataTramSonTayQNAlpha",
        .dir [(str "SHORT",
          .dir [(str "210101",
            .dir [(str "21010112",
              .dir [(str "21010112.00", .file)])])])])]
      [str "D"] [(str "DataTramSonTayQNAlpha*", str "SiteA")] false
      (fun _ => false)
      [str "DataTramSonTayQNAlpha", str "SHORT", str "210101",
       str "21010112", str "21010112.00"]
      [str "D", str "SiteA", str "210101", str "21010112", str "21010112.00"]
      (by decide)

/-- C6 — a walked file whose top-level name has no (truthy) mapping match
only appends a warning naming the directory and the file, changing
nothing else in the state, and the loop then continues with the
remaining files from that state. -/
theorem C6_routing_miss_warns_and_continues :
    ∀ (mapping : List (Str × Str)) (destRoot : FPath) (dry skip : Bool)
      (exists0 : FPath → Bool) (s : CopyState) (e : SrcTuple)
      (rest : List SrcTuple),
      match_mapping e.1 mapping = none →
      processEntry mapping destRoot dry skip exists0 s e =
        { s with logs := s.logs ++ [LogLine.warn e.1 e.2.2.2] } ∧
      copyLoop mapping destRoot dry skip exists0 (e :: rest) s =
        copyLoop mapping destRoot dry skip exists0 rest
          { s with logs := s.logs ++ [LogLine.warn e.1 e.2.2.2] } := by
  intro mapping destRoot dry skip exists0 s e rest hm
  have h1 : processEntry mapping destRoot dry skip exists0 s e =
      { s with logs := s.logs ++ [LogLine.warn e.1 e.2.2.2] } := by
    simp [processEntry, hm, pyTruthy]
  refine ⟨h1, ?_⟩
  unfold copyLoop
  rw [List.foldl_cons, h1]

/-- Witness for C6: a file under an unmatched top-level directory yields
a warning and the loop goes on to copy the next file. -/
theorem C6_witness :
    processEntry [(str "Other*", str "X")] [str "D"] false false
        (fun _ => false) initState
        (str "DataTramSonTayQNAlpha", str "210101", str "21010112",
          [str "DataTramSonTayQNAlpha", str "SHORT", str "210101",
           str "21010112", str "21010112.00"]) =
      { initState with logs := initState.logs ++
          [LogLine.warn (str "DataTramSonTayQNAlpha")
            [str "DataTramSonTayQNAlpha", str "SHORT", str "210101",
             str "21010112", str "21010112.00"]] } :=
  (C6_routing_miss_warns_and_continues [(str "Other*", str "X")] [str "D"]
    false false (fun _ => false) initState
    (str "DataTramSonTayQNAlpha", str "210101", str "21010112",
      [str "DataTramSonTayQNAlpha", str "SHORT", str "210101",
       str "21010112", str "21010112.00"]) [] (by decide)).1

/-- C7 — `main` fails with a distinct error, producing no run result (so
before any directory or file is touched), when the source root is
missing, when the mapping file is missing, or when openpyxl is
unavailable; the two existence checks win over the dependency check, so
they happen before the mapping is loaded. -/
theorem C7_startup_failures :
    (∀ (w : World) (a : Args), w.sourceRootExists = false →
      mainRun w a = Except.error SysExit.sourceRootNotFound)
    ∧ (∀ (w : World) (a : Args), w.sourceRootExists = true →
        w.mappingFileExists = false →
        mainRun w a = Except.error SysExit.mappingFileNotFound)
    ∧ (∀ (w : World) (a : Args), w.sourceRootExists = true →
        w.mappingFileExists = true → w.openpyxlAvailable = false →
        mainRun w a = Except.error SysExit.missingOpenpyxl) :=
  ⟨mainRun_err_source, mainRun_err_mapping, mainRun_err_openpyxl⟩

/-- Witness for C7: the three startup failures at concrete worlds; in the
first two, openpyxl is also unavailable, showing the existence checks
fire first. -/
theorem C7_witness :
    mainRun ⟨false, false, true, [], [], fun _ => false⟩ ⟨[], false, false⟩ =
      Except.error SysExit.sourceRootNotFound
    ∧ mainRun ⟨false, true, false, [], [], fun _ => false⟩ ⟨[], false, false⟩ =
      Except.error SysExit.mappingFileNotFound
    ∧ mainRun ⟨false, true, true, [], [], fun _ => false⟩ ⟨[], false, false⟩ =
      Except.error SysExit.missingOpenpyxl :=
  ⟨C7_startup_failures.1 _ _ rfl,
   C7_startup_failures.2.1 _ _ rfl rfl,
   C7_startup_failures.2.2 _ _ rfl rfl rfl⟩

/-- C8 — end-to-end: over the spec's one-file source tree with both
flags off, the mapping to `SiteA` creates the destination directory,
copies the file to `D/SiteA/210101/21010112/21010112.00` and returns a
count of 1; with an unrelated mapping the file is skipped with a
warning and the count is 0 with no mutation at all. -/
theorem C8_end_to_end_scenarios :
    ((copy_files
        [(str "DataTramSonTayQNAlpha",
          .dir [(str "SHORT",
            .dir [(str "210101",
              .dir [(str "21010112",
                .dir [(str "21010112.00", .file)])])])])]
        [str "D"] [(str "DataTramSonTayQNAlpha*", str "SiteA")] false false
        (fun _ => false)).count = 1
      ∧ (copy_files
        [(str "DataTramSonTayQNAlpha",
          .dir [(str "SHORT",
            .dir [(str "210101",
              .dir [(str "21010112",
                .dir [(str "21010112.00", .file)])])])])]
        [str "D"] [(str "DataTramSonTayQNAlpha*", str "SiteA")] false false
        (fun _ => false)).ops =
        [FsOp.mkdirp [str "D", str "SiteA", str "210101", str "21010112"],
         FsOp.copy
           [str "DataTramSonTayQNAlpha", str "SHORT", str "210101",
            str "21010112", str "21010112.00"]
           [str "D", str "SiteA", str "210101", str "21010112",
            str "21010112.00"]])
    ∧ ((copy_files
        [(str "DataTramSonTayQNAlpha",
          .dir [(str "SHORT",
            .dir [(str "210101",
              .dir [(str "21010112",
                .dir [(str "21010112.00", .file)])])])])]
        [str "D"] [(str "Unrelated*", str "X")] false false
        (fun _ => false)).count = 0
      ∧ (copy_files
        [(str "DataTramSonTayQNAlpha",
          .dir [(str "SHORT",
            .dir [(str "210101",
              .dir [(str "21010112",
                .dir [(str "21010112.00", .file)])])])])]
        [str "D"] [(str "Unrelated*", str "X")] false false
        (fun _ => false)).ops = []
      ∧ (copy_files
        [(str "DataTramSonTayQNAlpha",
          .dir [(str "SHORT",
            .dir [(str "210101",
              .dir [(str "21010112",
                .dir [(str "21010112.00", .file)])])])])]
        [str "D"] [(str "Unrelated*", str "X")] false false
        (fun _ => false)).logs =
        [LogLine.warn (str "DataTramSonTayQNAlpha")
          [str "DataTramSonTayQNAlpha", str "SHORT", str "210101",
           str "21010112", str "21010112.00"]]) := by
  exact ⟨⟨by decide, by decide⟩, by decide, by decide, by decide⟩
